import Mathlib

/-!
# Verification of the sudoku-solver repository

Shallow embedding of the two solver pipelines of the repository:

* `Functional` — `src/functional/functional_solver.py` together with
  `src/functional/utils_functional.py` (immutable tuple-of-tuples boards,
  copy-on-write updates);
* `Imperative` — `src/imperative/solver_imperative.py` together with
  `src/imperative/utils_imperative.py` (mutable list-of-lists boards with
  explicit copying);
* `Heap` — a store-passing model of the imperative pipeline making the
  mutation of Python list objects explicit, used for the frame property
  of `solve` (the input object is never written).

Boards are embedded as `List (List Nat)`; a cell read `board[r][c]`
becomes `cell b r c` (with default `0` out of range, matching the 9×9
well-formedness hypotheses under which the claims quantify).  The two
unboundedly recursive loops of the source (`propagate`'s fixed-point
iteration and `search`'s backtracking) are embedded with an explicit
fuel of 82, which is proved sufficient for `propagate`
(`Functional.propagate_fuel_enough`): the filled-cell count strictly
increases on every committing iteration and is bounded by 81.
-/

namespace Sudoku

/-- A board: list of rows, each a list of cell values (`0` = empty). -/
abbrev Board := List (List Nat)

/-- Cell read `board[r][c]`, with default `0` when out of range. -/
def cell (b : Board) (r c : Nat) : Nat := (b.getD r []).getD c 0

/-- All 81 coordinates in row-major (top-to-bottom, left-to-right) order,
the scan order of every loop in the source. -/
def allCells : List (Nat × Nat) :=
  (List.range 9).flatMap (fun r => (List.range 9).map (fun c => (r, c)))

/-- Lookup in a 9×9 candidates structure (`cands[r][c]`). -/
def candsAt (cb : List (List (List Nat))) (r c : Nat) : List Nat :=
  (cb.getD r []).getD c []

/-- The board is exactly 9 rows of 9 cells. -/
def wellFormed (b : Board) : Prop :=
  b.length = 9 ∧ ∀ row ∈ b, row.length = 9

instance : DecidablePred wellFormed := fun b => by
  unfold wellFormed; infer_instance

/-- Every cell value is at most 9 (input range `[0,9]`). -/
def cellsInRange (b : Board) : Prop :=
  ∀ row ∈ b, ∀ v ∈ row, v ≤ 9

instance : DecidablePred cellsInRange := fun b => by
  unfold cellsInRange; infer_instance

/-- Number of filled (non-zero) cells of the 9×9 grid view. -/
def filledCount (b : Board) : Nat :=
  (allCells.filter (fun rc => cell b rc.1 rc.2 != 0)).length

/-- Every filled cell of `b` holds the same value in `q` (the solvers
never overwrite an already-filled cell). -/
def cellsPreserved (b q : Board) : Prop :=
  ∀ r c, r < 9 → c < 9 → cell b r c ≠ 0 → cell q r c = cell b r c

namespace Functional

/-- `utils_functional.row_values`: non-zero values of row `r`. -/
def row_values (b : Board) (r : Nat) : List Nat :=
  (b.getD r []).filter (fun v => v != 0)

/-- `utils_functional.col_values`: non-zero values of column `c`. -/
def col_values (b : Board) (c : Nat) : List Nat :=
  ((List.range 9).map (fun r => cell b r c)).filter (fun v => v != 0)

/-- `utils_functional.box_values`: non-zero values of the 3×3 box of
`(r, c)`, collected row by row. -/
def box_values (b : Board) (r c : Nat) : List Nat :=
  (((List.range 3).map (fun i =>
    ((List.range 3).map (fun j => cell b (r / 3 * 3 + i) (c / 3 * 3 + j))).filter
      (fun v => v != 0)))).flatten

/-- `utils_functional.candidates_for`: the singleton of the value for a
filled cell, otherwise the digits `1..9` not used in the row, column or
box, in ascending order. -/
def candidates_for (b : Board) (r c : Nat) : List Nat :=
  if cell b r c != 0 then [cell b r c]
  else (List.range' 1 9).filter (fun x =>
    !((row_values b r).contains x || (col_values b c).contains x ||
      (box_values b r c).contains x))

/-- `utils_functional.all_candidates`: candidates for every cell. -/
def all_candidates (b : Board) : List (List (List Nat)) :=
  (List.range 9).map (fun r => (List.range 9).map (fun c => candidates_for b r c))

/-- `utils_functional.cell_has_no_candidates`: some cell has an empty
candidate list. -/
def cell_has_no_candidates (cb : List (List (List Nat))) : Bool :=
  (List.range 9).any (fun r => (List.range 9).any (fun c => (candsAt cb r c).isEmpty))

/-- `utils_functional.is_solved`: no zeros remain. -/
def is_solved (b : Board) : Bool :=
  (List.range 9).all (fun r => (List.range 9).all (fun c => cell b r c != 0))

/-- The duplicate test of `utils_functional.has_conflict.has_duplicates`
applied to the non-zero values: some value occurs again later. -/
def dup_rec : List Nat → Bool
  | [] => false
  | x :: xs => xs.contains x || dup_rec xs

/-- `has_duplicates` inside `utils_functional.has_conflict`. -/
def has_duplicates (l : List Nat) : Bool :=
  dup_rec (l.filter (fun v => v != 0))

/-- `utils_functional.has_conflict`: some row, column or box contains a
non-zero value twice. -/
def has_conflict (b : Board) : Bool :=
  ((List.range 9).any (fun i => has_duplicates (b.getD i []))) ||
  ((List.range 9).any (fun i =>
    has_duplicates ((List.range 9).map (fun r => cell b r i)))) ||
  ((List.range 9).any (fun i =>
    has_duplicates (((List.range 3).map (fun dr =>
      (List.range 3).map (fun dc => cell b (i / 3 * 3 + dr) (i % 3 * 3 + dc)))).flatten)))

/-- `functional_solver.set_cell`: rebuild the 9×9 board with `(r, c)`
set to `val` (copy-on-write; rows other than `r` are reused). -/
def set_cell (b : Board) (r c val : Nat) : Board :=
  (List.range 9).map (fun ri =>
    if ri = r then (List.range 9).map (fun ci => if ci = c then val else cell b ri ci)
    else b.getD ri [])

/-- `find_singletons` inside `functional_solver.propagate`: the empty
cells whose candidate list has exactly one member, as `(r, c, value)`
triples in scan order. -/
def find_singletons (b : Board) (cb : List (List (List Nat))) :
    List (Nat × Nat × Nat) :=
  (allCells.filter (fun rc =>
    cell b rc.1 rc.2 == 0 && (candsAt cb rc.1 rc.2).length == 1)).map
    (fun rc => (rc.1, rc.2, (candsAt cb rc.1 rc.2).headD 0))

/-- `apply_singles` inside `functional_solver.propagate`: commit all the
singleton triples left to right. -/
def apply_singles (b : Board) (singles : List (Nat × Nat × Nat)) : Board :=
  singles.foldl (fun acc rcv => set_cell acc rcv.1 rcv.2.1 rcv.2.2) b

/-- The recursive loop of `functional_solver.propagate`, with explicit
fuel; `none` means the fuel ran out (proved unreachable for fuel 82),
`some none` a contradiction, `some (some b)` the fixed point. -/
def propagate_loop : Nat → Board → Option (Option Board)
  | 0, _ => none
  | n + 1, b =>
    let cands := all_candidates b
    if cell_has_no_candidates cands then some none
    else
      let singles := find_singletons b cands
      if singles.isEmpty then some (some b)
      else propagate_loop n (apply_singles b singles)

/-- `functional_solver.propagate`. -/
def propagate (b : Board) : Option Board := (propagate_loop 82 b).getD none

/-- `min_candidates` inside `functional_solver.choose_mrv_cell`: the
step of the fold (note: a zero-candidate cell resets the accumulator to
`none`). -/
def min_candidates (acc : Option (Nat × Nat × List Nat)) (c : Nat × Nat × List Nat) :
    Option (Nat × Nat × List Nat) :=
  if c.2.2.length == 0 then none
  else match acc with
    | none => some c
    | some best => if c.2.2.length < best.2.2.length then some c else acc

/-- `functional_solver.choose_mrv_cell`. -/
def choose_mrv_cell (b : Board) : Option (Nat × Nat × List Nat) :=
  let cands := all_candidates b
  let cells := (allCells.filter (fun rc => cell b rc.1 rc.2 == 0)).map
    (fun rc => (rc.1, rc.2, candsAt cands rc.1 rc.2))
  if cells.isEmpty then none
  else cells.foldl min_candidates none

/-- `functional_solver.try_each` applied to a list: first success wins. -/
def try_each (f : Nat → Option Board) : List Nat → Option Board
  | [] => none
  | v :: vs =>
    match f v with
    | some res => some res
    | none => try_each f vs

/-- `functional_solver.search`, with explicit recursion fuel. -/
def search_loop : Nat → Board → Option Board
  | 0, _ => none
  | n + 1, b =>
    match propagate b with
    | none => none
    | some p =>
      if is_solved p then some p
      else
        match choose_mrv_cell p with
        | none => none
        | some rcc => try_each (fun v => search_loop n (set_cell p rcc.1 rcc.2.1 v)) rcc.2.2

/-- `functional_solver.search` (recursion depth is bounded by 82: every
level fills at least one more cell). -/
def search (b : Board) : Option Board := search_loop 82 b

/-- `utils_functional.to_immutable` (`int` on each cell: identity here). -/
def to_immutable (b : Board) : Board := b.map (fun row => row.map (fun v => v))

/-- `utils_functional.from_immutable` (`list` on each row). -/
def from_immutable (b : Board) : Board := b.map (fun row => row.map (fun v => v))

/-- `functional_solver.solve`. -/
def solve (b : Board) : Option Board :=
  let bi := to_immutable b
  if has_conflict bi then none
  else
    match search bi with
    | none => none
    | some res => some (from_immutable res)

end Functional

namespace Imperative

/-- `utils_imperative.copy_board`: a fresh list of fresh rows with the
same values. -/
def copy_board (b : Board) : Board := b.map (fun row => row.map (fun v => v))

/-- `solver_imperative.set_cell`: in-place `board[r][c] = val`, as the
value of the mutated list (no-op when the indices are out of range,
where Python would raise). -/
def set_cell (b : Board) (r c val : Nat) : Board :=
  b.set r ((b.getD r []).set c val)

/-- `utils_imperative.row_values`. -/
def row_values (b : Board) (r : Nat) : List Nat :=
  (b.getD r []).filter (fun v => v != 0)

/-- `utils_imperative.col_values`. -/
def col_values (b : Board) (c : Nat) : List Nat :=
  ((List.range 9).map (fun r => cell b r c)).filter (fun v => v != 0)

/-- `utils_imperative.box_values`. -/
def box_values (b : Board) (r c : Nat) : List Nat :=
  (((List.range 3).map (fun i =>
    ((List.range 3).map (fun j => cell b (r / 3 * 3 + i) (c / 3 * 3 + j))).filter
      (fun v => v != 0)))).flatten

/-- The `used` accumulation of `utils_imperative.candidates_for`:
append each value not already present. -/
def add_new (used : List Nat) (xs : List Nat) : List Nat :=
  xs.foldl (fun u x => if u.contains x then u else u ++ [x]) used

/-- `utils_imperative.candidates_for`. -/
def candidates_for (b : Board) (r c : Nat) : List Nat :=
  if cell b r c != 0 then [cell b r c]
  else
    let used := add_new (add_new (add_new [] (row_values b r)) (col_values b c))
      (box_values b r c)
    (List.range' 1 9).filter (fun x => !(used.contains x))

/-- `utils_imperative.all_candidates`. -/
def all_candidates (b : Board) : List (List (List Nat)) :=
  (List.range 9).map (fun r => (List.range 9).map (fun c => candidates_for b r c))

/-- `utils_imperative.is_solved`. -/
def is_solved (b : Board) : Bool :=
  (List.range 9).all (fun r => (List.range 9).all (fun c => cell b r c != 0))

/-- `dup` inside `utils_imperative.has_conflict`: the non-zero values,
compared with their deduplication (`len(xs2) != len(set(xs2))`). -/
def dup (xs : List Nat) : Bool :=
  let xs2 := xs.filter (fun v => v != 0)
  xs2.length != xs2.dedup.length

/-- `utils_imperative.has_conflict`. -/
def has_conflict (b : Board) : Bool :=
  ((List.range 9).any (fun r => dup (b.getD r []))) ||
  ((List.range 9).any (fun c => dup ((List.range 9).map (fun r => cell b r c)))) ||
  ((List.range 9).any (fun i =>
    let vals := (((List.range 3).map (fun dr =>
      ((List.range 3).map (fun dc => cell b (i / 3 * 3 + dr) (i % 3 * 3 + dc))).filter
        (fun v => v != 0)))).flatten
    vals.length != vals.dedup.length))

/-- `utils_imperative.cell_has_no_candidates`. -/
def cell_has_no_candidates (cb : List (List (List Nat))) : Bool :=
  (List.range 9).any (fun r => (List.range 9).any (fun c => (candsAt cb r c).isEmpty))

/-- `find_single` collected over all cells by `collect_from_cells`
inside `solver_imperative.propagate`. -/
def find_singles (b : Board) (cb : List (List (List Nat))) :
    List (Nat × Nat × Nat) :=
  allCells.filterMap (fun rc =>
    if cell b rc.1 rc.2 == 0 && (candsAt cb rc.1 rc.2).length == 1 then
      some (rc.1, rc.2, (candsAt cb rc.1 rc.2).headD 0)
    else none)

/-- The `while True` loop of `solver_imperative.propagate`, with fuel. -/
def propagate_loop : Nat → Board → Option (Option Board)
  | 0, _ => none
  | n + 1, b =>
    let cands := all_candidates b
    if cell_has_no_candidates cands then some none
    else
      let singles := find_singles b cands
      if singles.isEmpty then some (some b)
      else propagate_loop n
        (singles.foldl (fun acc rcv => set_cell acc rcv.1 rcv.2.1 rcv.2.2) b)

/-- `solver_imperative.propagate`. -/
def propagate (b : Board) : Option Board := (propagate_loop 82 b).getD none

/-- The double `for` loop of `solver_imperative.choose_mrv_cell` with
its three early returns, as a recursion over the scan order. -/
def choose_go (b : Board) (cb : List (List (List Nat))) :
    List (Nat × Nat) → Option (Nat × Nat × List Nat) → Option (Nat × Nat × List Nat)
  | [], best => best
  | rc :: rest, best =>
    if cell b rc.1 rc.2 == 0 then
      let cl := candsAt cb rc.1 rc.2
      if cl.length == 0 then none
      else if cl.length == 1 then some (rc.1, rc.2, cl)
      else
        match best with
        | none => choose_go b cb rest (some (rc.1, rc.2, cl))
        | some bst =>
          if cl.length < bst.2.2.length then choose_go b cb rest (some (rc.1, rc.2, cl))
          else choose_go b cb rest best
    else choose_go b cb rest best

/-- `solver_imperative.choose_mrv_cell`. -/
def choose_mrv_cell (b : Board) : Option (Nat × Nat × List Nat) :=
  choose_go b (all_candidates b) allCells none

/-- The `for val in candidates` loop of `solver_imperative.search`:
first recursive success wins. -/
def try_vals (f : Nat → Option Board) : List Nat → Option Board
  | [] => none
  | v :: vs =>
    match f v with
    | some res => some res
    | none => try_vals f vs

/-- `solver_imperative.search`, with explicit recursion fuel. -/
def search_loop : Nat → Board → Option Board
  | 0, _ => none
  | n + 1, b =>
    match propagate (copy_board b) with
    | none => none
    | some p =>
      if is_solved p then some p
      else
        match choose_mrv_cell p with
        | none => none
        | some rcc =>
          try_vals (fun v => search_loop n (set_cell (copy_board p) rcc.1 rcc.2.1 v))
            rcc.2.2

/-- `solver_imperative.search`. -/
def search (b : Board) : Option Board := search_loop 82 b

/-- `solver_imperative.solve`. -/
def solve (b : Board) : Option Board :=
  let board := copy_board b
  if has_conflict board then none
  else
    match search board with
    | none => none
    | some result => some result

end Imperative

namespace Heap

/-!
Store-passing model of the imperative pipeline.  Python list objects
become references (indices) into a store; `copy_board` allocates a
fresh object, `set_cell` writes through a reference.  Every read-only
helper (`all_candidates`, `has_conflict`, …) is the value-level
imperative function applied to the dereferenced board.
-/

/-- The heap: board objects addressed by allocation index. -/
abbrev Store := List Board

/-- Dereference a board object. -/
def readRef (s : Store) (i : Nat) : Board := s.getD i []

/-- Overwrite a board object in place. -/
def writeRef (s : Store) (i : Nat) (b : Board) : Store := s.set i b

/-- Allocate a new board object at the end of the store; the fresh
reference is the old store length. -/
def allocBoard (s : Store) (b : Board) : Store := s ++ [b]

/-- `set_cell(board, r, c, val)`: mutate the referenced object. -/
def set_cellH (s : Store) (ref r c val : Nat) : Store :=
  writeRef s ref (Imperative.set_cell (readRef s ref) r c val)

/-- `solver_imperative.propagate`, mutating its argument object; it
returns its argument reference at the fixed point. -/
def propagate_loopH : Nat → Store → Nat → Option Nat × Store
  | 0, s, _ => (none, s)
  | n + 1, s, ref =>
    let b := readRef s ref
    let cands := Imperative.all_candidates b
    if Imperative.cell_has_no_candidates cands then (none, s)
    else
      let singles := Imperative.find_singles b cands
      if singles.isEmpty then (some ref, s)
      else propagate_loopH n
        (singles.foldl (fun st rcv => set_cellH st ref rcv.1 rcv.2.1 rcv.2.2) s) ref

/-- The candidate loop of `solver_imperative.search` over the store. -/
def try_valsH (f : Nat → Store → Option Nat × Store) :
    List Nat → Store → Option Nat × Store
  | [], s => (none, s)
  | v :: vs, s =>
    match f v s with
    | (some res, s2) => (some res, s2)
    | (none, s2) => try_valsH f vs s2

/-- `solver_imperative.search` over the store: allocate a copy of the
argument object (`copy_board`, fresh reference `s.length`), propagate
the copy in place, branch on fresh copies. -/
def search_loopH : Nat → Store → Nat → Option Nat × Store
  | 0, s, _ => (none, s)
  | n + 1, s, ref =>
    match propagate_loopH 82 (allocBoard s (Imperative.copy_board (readRef s ref)))
      s.length with
    | (none, s2) => (none, s2)
    | (some p, s2) =>
      if Imperative.is_solved (readRef s2 p) then (some p, s2)
      else
        match Imperative.choose_mrv_cell (readRef s2 p) with
        | none => (none, s2)
        | some rcc =>
          try_valsH (fun v st =>
            search_loopH n
              (set_cellH (allocBoard st (Imperative.copy_board (readRef st p)))
                st.length rcc.1 rcc.2.1 v) st.length) rcc.2.2 s2

/-- `solver_imperative.solve` over the store: allocate a copy of the
input object, fail fast on conflict, search the copy. -/
def solveH (s : Store) (input : Nat) : Option Nat × Store :=
  if Imperative.has_conflict (Imperative.copy_board (readRef s input)) then
    (none, allocBoard s (Imperative.copy_board (readRef s input)))
  else
    search_loopH 82 (allocBoard s (Imperative.copy_board (readRef s input))) s.length

end Heap

/-!
## Concrete boards

`cexValidityIn` is conflict-free, but its six empty cells form three
pairs of same-unit cells with identical singleton candidate sets
(`(0,4)` and `(0,5)` both `{5}`, `(1,0)` and `(1,6)` both `{8}`,
`(8,2)` `{2}` / `(8,4)` `{5}`); one propagation pass commits all six,
so `solve` returns the fully-filled but conflicted `cexValidityOut`.
-/

/-- Conflict-free input on which one propagation pass commits
conflicting singletons (see module comment). -/
def cexValidityIn : Board :=
  [[9,1,6,4,0,0,7,2,3],
   [0,5,7,3,9,1,0,6,4],
   [2,4,3,8,7,6,1,9,5],
   [4,2,8,7,3,9,5,1,6],
   [5,7,1,6,8,4,9,3,2],
   [3,6,9,5,1,2,4,8,7],
   [6,3,5,1,4,8,2,7,9],
   [1,9,4,2,6,7,3,5,8],
   [7,8,0,9,0,3,6,4,1]]

/-- The board `solve` returns on `cexValidityIn`: fully filled, with
`5` twice in row 0 and `8` twice in row 1. -/
def cexValidityOut : Board :=
  [[9,1,6,4,5,5,7,2,3],
   [8,5,7,3,9,1,8,6,4],
   [2,4,3,8,7,6,1,9,5],
   [4,2,8,7,3,9,5,1,6],
   [5,7,1,6,8,4,9,3,2],
   [3,6,9,5,1,2,4,8,7],
   [6,3,5,1,4,8,2,7,9],
   [1,9,4,2,6,7,3,5,8],
   [7,8,2,9,5,3,6,4,1]]

/-- A board with `5` twice in row 0 (`hasConflict` is true). -/
def conflictedBoard : Board :=
  [[5,5,0,0,0,0,0,0,0],
   [0,0,0,0,0,0,0,0,0],
   [0,0,0,0,0,0,0,0,0],
   [0,0,0,0,0,0,0,0,0],
   [0,0,0,0,0,0,0,0,0],
   [0,0,0,0,0,0,0,0,0],
   [0,0,0,0,0,0,0,0,0],
   [0,0,0,0,0,0,0,0,0],
   [0,0,0,0,0,0,0,0,0]]

/-- A complete valid grid with cell `(0,0)` replaced by the
out-of-range value `10` and cell `(8,8)` emptied: it passes the
conflict check and `solve` fills `(8,8)`, returning a board that still
contains `10`. -/
def rangeViolationIn : Board :=
  [[10,3,4,6,7,8,9,1,2],
   [6,7,2,1,9,5,3,4,8],
   [1,9,8,3,4,2,5,6,7],
   [8,5,9,7,6,1,4,2,3],
   [4,2,6,8,5,3,7,9,1],
   [7,1,3,9,2,4,8,5,6],
   [9,6,1,5,3,7,2,8,4],
   [2,8,7,4,1,9,6,3,5],
   [3,4,5,2,8,6,1,7,0]]

/-- What `solve` returns on `rangeViolationIn`. -/
def rangeViolationOut : Board :=
  [[10,3,4,6,7,8,9,1,2],
   [6,7,2,1,9,5,3,4,8],
   [1,9,8,3,4,2,5,6,7],
   [8,5,9,7,6,1,4,2,3],
   [4,2,6,8,5,3,7,9,1],
   [7,1,3,9,2,4,8,5,6],
   [9,6,1,5,3,7,2,8,4],
   [2,8,7,4,1,9,6,3,5],
   [3,4,5,2,8,6,1,7,9]]

/-- A board whose cell `(0,0)` is empty with an empty candidate set
(row 0 holds `1..8`, and `9` sits below it in column 0), while many
later empty cells have candidates. -/
def zeroCandBoard : Board :=
  [[0,1,2,3,4,5,6,7,8],
   [9,0,0,0,0,0,0,0,0],
   [0,0,0,0,0,0,0,0,0],
   [0,0,0,0,0,0,0,0,0],
   [0,0,0,0,0,0,0,0,0],
   [0,0,0,0,0,0,0,0,0],
   [0,0,0,0,0,0,0,0,0],
   [0,0,0,0,0,0,0,0,0],
   [0,0,0,0,0,0,0,0,0]]

/-!
## Basic indexing lemmas
-/

lemma getD_map_range_of_lt {α : Type} (f : Nat → α) {n i : Nat} (h : i < n) (d : α) :
    ((List.range n).map f).getD i d = f i := by
  rw [List.getD_eq_getElem?_getD, List.getElem?_map, List.getElem?_range h]
  rfl

lemma getD_map_range_of_ge {α : Type} (f : Nat → α) {n i : Nat} (h : n ≤ i) (d : α) :
    ((List.range n).map f).getD i d = d := by
  rw [List.getD_eq_getElem?_getD, List.getElem?_eq_none]
  · rfl
  · simpa using h

lemma getD_eq_getElem_of_lt {α : Type} (l : List α) {i : Nat} (h : i < l.length) (d : α) :
    l.getD i d = l[i] := by
  rw [List.getD_eq_getElem?_getD, List.getElem?_eq_getElem h]
  rfl

lemma getD_mem_of_lt {α : Type} (l : List α) {i : Nat} (h : i < l.length) (d : α) :
    l.getD i d ∈ l := by
  rw [getD_eq_getElem_of_lt l h d]
  exact List.getElem_mem h

lemma getD_set {α : Type} (l : List α) (i j : Nat) (a d : α) :
    (l.set i a).getD j d =
      if i = j ∧ i < l.length then a else l.getD j d := by
  rw [List.getD_eq_getElem?_getD, List.getD_eq_getElem?_getD, List.getElem?_set]
  by_cases hij : i = j
  · subst hij
    by_cases hlen : i < l.length
    · simp [hlen]
    · rw [if_pos rfl, if_neg hlen, if_neg (by tauto), List.getElem?_eq_none (by omega)]
  · simp [hij]

lemma mem_allCells {rc : Nat × Nat} : rc ∈ allCells ↔ rc.1 < 9 ∧ rc.2 < 9 := by
  obtain ⟨r, c⟩ := rc
  simp [allCells]

/-- The 9×9 grid view of `Functional.set_cell`. -/
lemma cell_set_cell_F (b : Board) (r c v r' c' : Nat) (hr : r' < 9) (hc : c' < 9) :
    cell (Functional.set_cell b r c v) r' c' =
      if r' = r ∧ c' = c then v else cell b r' c' := by
  unfold Functional.set_cell
  conv_lhs => rw [cell]
  simp only [getD_map_range_of_lt _ hr]
  by_cases hrr : r' = r
  · rw [if_pos hrr]
    simp only [getD_map_range_of_lt _ hc]
    by_cases hcc : c' = c
    · rw [if_pos hcc, if_pos ⟨hrr, hcc⟩]
    · rw [if_neg hcc, if_neg (by tauto)]
  · rw [if_neg hrr, if_neg (by tauto)]
    rfl

/-- `Functional.set_cell` always yields a 9×9 board when its input is
9×9. -/
lemma wellFormed_set_cell_F {b : Board} (hb : wellFormed b) (r c v : Nat) :
    wellFormed (Functional.set_cell b r c v) := by
  obtain ⟨hlen, hrow⟩ := hb
  constructor
  · simp [Functional.set_cell]
  · intro row hmem
    simp only [Functional.set_cell, List.mem_map, List.mem_range] at hmem
    obtain ⟨ri, hri, hrow2⟩ := hmem
    by_cases hrr : ri = r
    · rw [if_pos hrr] at hrow2
      simp [← hrow2]
    · rw [if_neg hrr] at hrow2
      have : b.getD ri [] ∈ b := getD_mem_of_lt b (by omega) []
      exact hrow2 ▸ hrow _ this

/-- On 9×9 boards and in-range coordinates, in-place assignment and
copy-on-write rebuilding produce the same board. -/
lemma set_cell_I_eq_F {b : Board} (hb : wellFormed b) {r c : Nat} (v : Nat)
    (hr : r < 9) (hc : c < 9) :
    Imperative.set_cell b r c v = Functional.set_cell b r c v := by
  obtain ⟨hlen, hrow⟩ := hb
  have hrowlen : ∀ i, i < 9 → (b.getD i []).length = 9 := fun i hi =>
    hrow _ (getD_mem_of_lt b (by omega) [])
  apply List.ext_getElem
  · simp [Imperative.set_cell, Functional.set_cell, hlen]
  · intro ri h1 h2
    have hri9 : ri < 9 := by simpa [Imperative.set_cell, hlen] using h1
    simp only [Imperative.set_cell, Functional.set_cell, List.getElem_map,
      List.getElem_range, List.getElem_set]
    by_cases hrr : r = ri
    · rw [if_pos hrr, if_pos hrr.symm, ← hrr]
      apply List.ext_getElem
      · simp only [List.length_set, List.length_map, List.length_range]
        exact hrowlen r hr
      · intro ci hc1 hc2
        have hci9 : ci < 9 := by
          rw [List.length_set, hrowlen r hr] at hc1
          exact hc1
        simp only [List.getElem_set, List.getElem_map, List.getElem_range]
        by_cases hcc : c = ci
        · rw [if_pos hcc, if_pos hcc.symm]
        · rw [if_neg hcc, if_neg (fun h => hcc h.symm)]
          exact (getD_eq_getElem_of_lt _ (by rw [hrowlen r hr]; exact hci9) 0).symm
    · rw [if_neg hrr, if_neg (fun h => hrr h.symm)]
      exact (getD_eq_getElem_of_lt b (by omega) []).symm

/-- In-place assignment preserves the 9×9 shape. -/
lemma wellFormed_set_cell_I {b : Board} (hb : wellFormed b) {r : Nat} (hr : r < 9)
    (c v : Nat) : wellFormed (Imperative.set_cell b r c v) := by
  obtain ⟨hlen, hrow⟩ := hb
  constructor
  · simp [Imperative.set_cell, hlen]
  · intro row hmem
    rcases List.mem_or_eq_of_mem_set hmem with h | h
    · exact hrow _ h
    · subst h
      rw [List.length_set]
      exact hrow _ (getD_mem_of_lt b (by omega) [])

/-!
## The two candidate engines compute the same values
-/

lemma contains_eq_decide_mem (l : List Nat) (a : Nat) : l.contains a = decide (a ∈ l) :=
  List.elem_eq_mem a l

lemma mem_add_new (used xs : List Nat) (y : Nat) :
    y ∈ Imperative.add_new used xs ↔ y ∈ used ∨ y ∈ xs := by
  induction xs generalizing used with
  | nil => simp [Imperative.add_new]
  | cons x xs ih =>
    show y ∈ Imperative.add_new (if used.contains x then used else used ++ [x]) xs ↔ _
    rw [ih]
    by_cases hx : used.contains x
    · have hxmem : x ∈ used := by
        rw [contains_eq_decide_mem] at hx
        exact of_decide_eq_true hx
      rw [if_pos hx]
      simp only [List.mem_cons]
      constructor
      · tauto
      · rintro (h | rfl | h)
        · tauto
        · exact Or.inl hxmem
        · tauto
    · rw [if_neg hx]
      simp only [List.mem_append, List.mem_cons, List.mem_singleton]
      tauto

lemma row_values_eq : Imperative.row_values = Functional.row_values := rfl

lemma col_values_eq : Imperative.col_values = Functional.col_values := rfl

lemma box_values_eq : Imperative.box_values = Functional.box_values := rfl

lemma candidates_for_eq (b : Board) (r c : Nat) :
    Imperative.candidates_for b r c = Functional.candidates_for b r c := by
  unfold Imperative.candidates_for Functional.candidates_for
  by_cases hf : cell b r c != 0
  · rw [if_pos hf, if_pos hf]
  · rw [if_neg hf, if_neg hf]
    apply List.filter_congr
    intro x _
    rw [contains_eq_decide_mem]
    have hmem : x ∈ Imperative.add_new (Imperative.add_new (Imperative.add_new []
        (Imperative.row_values b r)) (Imperative.col_values b c))
        (Imperative.box_values b r c) ↔
        x ∈ Functional.row_values b r ∨ x ∈ Functional.col_values b c ∨
        x ∈ Functional.box_values b r c := by
      rw [mem_add_new, mem_add_new, mem_add_new, row_values_eq, col_values_eq,
        box_values_eq]
      simp
      tauto
    simp only [contains_eq_decide_mem, hmem]
    by_cases h1 : x ∈ Functional.row_values b r <;>
      by_cases h2 : x ∈ Functional.col_values b c <;>
        by_cases h3 : x ∈ Functional.box_values b r c <;>
          simp [h1, h2, h3]

lemma all_candidates_eq (b : Board) :
    Imperative.all_candidates b = Functional.all_candidates b := by
  unfold Imperative.all_candidates Functional.all_candidates
  simp [candidates_for_eq]

lemma candsAt_all_candidates (b : Board) {r c : Nat} (hr : r < 9) (hc : c < 9) :
    candsAt (Functional.all_candidates b) r c = Functional.candidates_for b r c := by
  unfold candsAt Functional.all_candidates
  rw [getD_map_range_of_lt _ hr, getD_map_range_of_lt _ hc]

lemma cell_has_no_candidates_eq :
    Imperative.cell_has_no_candidates = Functional.cell_has_no_candidates := rfl

lemma is_solved_eq : Imperative.is_solved = Functional.is_solved := rfl

lemma filterMap_if_eq_filter_map {α β : Type} (l : List α) (p : α → Bool) (g : α → β) :
    l.filterMap (fun x => if p x then some (g x) else none) = (l.filter p).map g := by
  induction l with
  | nil => rfl
  | cons x xs ih =>
    rw [List.filterMap_cons, List.filter_cons]
    by_cases hx : p x
    · rw [if_pos hx]
      simp only [hx, if_true, List.map_cons, ih]
    · rw [if_neg hx]
      simp only [hx, Bool.false_eq_true, if_false, ih]

lemma find_singles_eq (b : Board) (cb : List (List (List Nat))) :
    Imperative.find_singles b cb = Functional.find_singletons b cb := by
  unfold Imperative.find_singles Functional.find_singletons
  exact filterMap_if_eq_filter_map allCells _ _

/-!
## The two duplicate detectors agree
-/

lemma dup_rec_eq_nodup (l : List Nat) : Functional.dup_rec l = !decide l.Nodup := by
  induction l with
  | nil => simp [Functional.dup_rec]
  | cons x xs ih =>
    unfold Functional.dup_rec
    by_cases hx : x ∈ xs <;> by_cases hn : xs.Nodup <;>
      simp [hx, hn, ih, contains_eq_decide_mem, List.nodup_cons]

lemma length_dedup_eq_iff (l : List Nat) : l.dedup.length = l.length ↔ l.Nodup := by
  induction l with
  | nil => simp
  | cons x xs ih =>
    by_cases hx : x ∈ xs
    · rw [List.dedup_cons_of_mem hx]
      have hle : xs.dedup.length ≤ xs.length := (List.dedup_sublist xs).length_le
      simp only [List.length_cons, List.nodup_cons]
      constructor
      · intro h
        omega
      · intro ⟨h1, _⟩
        exact absurd hx h1
    · rw [List.dedup_cons_of_not_mem hx]
      simp only [List.length_cons, List.nodup_cons]
      rw [Nat.succ_inj]
      rw [ih]
      tauto

lemma bne_length_dedup (l : List Nat) : (l.length != l.dedup.length) = !decide l.Nodup := by
  by_cases hn : l.Nodup
  · have := (length_dedup_eq_iff l).mpr hn
    simp [this, hn]
  · have : ¬ l.dedup.length = l.length := fun h => hn ((length_dedup_eq_iff l).mp h)
    simp [hn]
    omega

lemma dup_eq_has_duplicates (xs : List Nat) :
    Imperative.dup xs = Functional.has_duplicates xs := by
  unfold Imperative.dup Functional.has_duplicates
  rw [dup_rec_eq_nodup, bne_length_dedup]

lemma has_conflict_eq (b : Board) :
    Imperative.has_conflict b = Functional.has_conflict b := by
  unfold Imperative.has_conflict Functional.has_conflict
  congr 1
  · congr 1
    · congr 1
      funext i
      rw [dup_eq_has_duplicates]
    · congr 1
      funext i
      rw [dup_eq_has_duplicates]
  · congr 1
    funext i
    dsimp only
    rw [bne_length_dedup]
    unfold Functional.has_duplicates
    rw [dup_rec_eq_nodup]
    congr 2
    rw [List.filter_flatten]
    congr 1

/-!
## Properties of the singleton pass and of `propagate`
-/

lemma cellsPreserved_refl (b : Board) : cellsPreserved b b := fun _ _ _ _ _ => rfl

lemma cellsPreserved_trans {b p q : Board} (h1 : cellsPreserved b p)
    (h2 : cellsPreserved p q) : cellsPreserved b q := by
  intro r c hr hc hne
  have e1 := h1 r c hr hc hne
  have e2 := h2 r c hr hc (by rw [e1]; exact hne)
  rw [e2, e1]

lemma candidates_for_pos {b : Board} {r c x : Nat}
    (hx : x ∈ Functional.candidates_for b r c) : x ≠ 0 := by
  unfold Functional.candidates_for at hx
  by_cases hf : cell b r c != 0
  · rw [if_pos hf] at hx
    simp only [List.mem_singleton] at hx
    subst hx
    simpa using hf
  · rw [if_neg hf] at hx
    have := (List.mem_filter.mp hx).1
    have : 1 ≤ x := by
      have hm := List.mem_range'.mp this
      omega
    omega

lemma mem_find_singletons {b : Board} {rcv : Nat × Nat × Nat}
    (h : rcv ∈ Functional.find_singletons b (Functional.all_candidates b)) :
    rcv.1 < 9 ∧ rcv.2.1 < 9 ∧ cell b rcv.1 rcv.2.1 = 0 ∧ rcv.2.2 ≠ 0 ∧
      Functional.candidates_for b rcv.1 rcv.2.1 = [rcv.2.2] := by
  unfold Functional.find_singletons at h
  simp only [List.mem_map, List.mem_filter] at h
  obtain ⟨rc, ⟨hmem, hcond⟩, heq⟩ := h
  obtain ⟨hr9, hc9⟩ := mem_allCells.mp hmem
  simp only [Bool.and_eq_true, beq_iff_eq] at hcond
  obtain ⟨hzero, hlen⟩ := hcond
  have hcnd : candsAt (Functional.all_candidates b) rc.1 rc.2 =
      Functional.candidates_for b rc.1 rc.2 := candsAt_all_candidates b hr9 hc9
  rw [hcnd] at hlen
  have hlen1 : (Functional.candidates_for b rc.1 rc.2).length = 1 := by
    exact_mod_cast hlen
  obtain ⟨v, hv⟩ := List.length_eq_one.mp hlen1
  have hhead : (candsAt (Functional.all_candidates b) rc.1 rc.2).headD 0 = v := by
    rw [hcnd, hv]
    rfl
  subst heq
  refine ⟨hr9, hc9, hzero, ?_, ?_⟩
  · rw [hhead]
    exact candidates_for_pos (hv ▸ List.mem_singleton_self v)
  · rw [hhead]
    exact hv

lemma cell_apply_singles_preserved {b : Board} {singles : List (Nat × Nat × Nat)}
    (hs : ∀ s ∈ singles, s.1 < 9 ∧ s.2.1 < 9 ∧ cell b s.1 s.2.1 = 0) :
    ∀ q, cellsPreserved b q → cellsPreserved b (Functional.apply_singles q singles) := by
  induction singles with
  | nil => intro q hq; exact hq
  | cons s rest ih =>
    intro q hq
    show cellsPreserved b
      (Functional.apply_singles (Functional.set_cell q s.1 s.2.1 s.2.2) rest)
    apply ih (fun t ht => hs t (List.mem_cons_of_mem s ht))
    intro r c hr hc hne
    rw [cell_set_cell_F q s.1 s.2.1 s.2.2 r c hr hc]
    have hs0 := hs s (List.mem_cons_self s rest)
    have : ¬ (r = s.1 ∧ c = s.2.1) := by
      rintro ⟨rfl, rfl⟩
      exact hne hs0.2.2
    rw [if_neg this]
    exact hq r c hr hc hne

lemma wellFormed_apply_singles {b : Board} (hb : wellFormed b)
    (singles : List (Nat × Nat × Nat)) :
    wellFormed (Functional.apply_singles b singles) := by
  induction singles generalizing b with
  | nil => exact hb
  | cons s rest ih => exact ih (wellFormed_set_cell_F hb _ _ _)

lemma allCells_length : allCells.length = 81 := by decide

lemma allCells_nodup : allCells.Nodup := by decide

lemma filledCount_le (b : Board) : filledCount b ≤ 81 := by
  calc filledCount b ≤ allCells.length := (List.filter_sublist _).length_le
  _ = 81 := allCells_length

lemma filledCount_set_cell_ge (b : Board) {v : Nat} (r c : Nat) (hv : v ≠ 0) :
    filledCount b ≤ filledCount (Functional.set_cell b r c v) := by
  unfold filledCount
  rw [← List.countP_eq_length_filter, ← List.countP_eq_length_filter]
  apply List.countP_mono_left
  intro rc hmem hb
  obtain ⟨hr9, hc9⟩ := mem_allCells.mp hmem
  rw [cell_set_cell_F b r c v rc.1 rc.2 hr9 hc9]
  by_cases ht : rc.1 = r ∧ rc.2 = c
  · rw [if_pos ht]
    simpa using hv
  · rw [if_neg ht]
    exact hb

lemma filledCount_set_cell_gt {b : Board} {r c v : Nat} (hr : r < 9) (hc : c < 9)
    (hv : v ≠ 0) (hemp : cell b r c = 0) :
    filledCount b < filledCount (Functional.set_cell b r c v) := by
  obtain ⟨l1, l2, hsplit⟩ := List.append_of_mem ((@mem_allCells (r, c)).mpr ⟨hr, hc⟩)
  unfold filledCount
  rw [← List.countP_eq_length_filter, ← List.countP_eq_length_filter, hsplit,
    List.countP_append, List.countP_append, List.countP_cons, List.countP_cons]
  have hview : ∀ rc : Nat × Nat, rc ∈ allCells →
      (cell (Functional.set_cell b r c v) rc.1 rc.2 != 0) =
        (if rc.1 = r ∧ rc.2 = c then (v != 0) else (cell b rc.1 rc.2 != 0)) := by
    intro rc hmem
    obtain ⟨hr9, hc9⟩ := mem_allCells.mp hmem
    rw [cell_set_cell_F b r c v rc.1 rc.2 hr9 hc9]
    by_cases ht : rc.1 = r ∧ rc.2 = c
    · rw [if_pos ht, if_pos ht]
    · rw [if_neg ht, if_neg ht]
  have hmono : ∀ l : List (Nat × Nat), (∀ x ∈ l, x ∈ allCells) →
      List.countP (fun rc => cell b rc.1 rc.2 != 0) l ≤
        List.countP (fun rc => cell (Functional.set_cell b r c v) rc.1 rc.2 != 0) l := by
    intro l hsub
    apply List.countP_mono_left
    intro rc hmem hb2
    rw [hview rc (hsub rc hmem)]
    by_cases ht : rc.1 = r ∧ rc.2 = c
    · rw [if_pos ht]
      simpa using hv
    · rw [if_neg ht]
      exact hb2
  have hsub1 : ∀ x ∈ l1, x ∈ allCells := by
    intro x hx
    rw [hsplit]
    exact List.mem_append_left _ hx
  have hsub2 : ∀ x ∈ l2, x ∈ allCells := by
    intro x hx
    rw [hsplit]
    exact List.mem_append_right _ (List.mem_cons_of_mem _ hx)
  have hat : cell (Functional.set_cell b r c v) r c = v := by
    rw [cell_set_cell_F b r c v r c hr hc, if_pos ⟨rfl, rfl⟩]
  have h1 := hmono l1 hsub1
  have h2 := hmono l2 hsub2
  simp only [hemp, hat]
  have hvt : (v != 0) = true := by simpa using hv
  simp only [hvt, bne_self_eq_false, Bool.false_eq_true, if_false, if_true]
  omega

lemma filledCount_apply_singles_ge (singles : List (Nat × Nat × Nat))
    (hval : ∀ s ∈ singles, s.2.2 ≠ 0) :
    ∀ q : Board, filledCount q ≤ filledCount (Functional.apply_singles q singles) := by
  induction singles with
  | nil => intro q; exact Nat.le_refl _
  | cons s rest ih =>
    intro q
    show filledCount q ≤
      filledCount (Functional.apply_singles (Functional.set_cell q s.1 s.2.1 s.2.2) rest)
    calc filledCount q
        ≤ filledCount (Functional.set_cell q s.1 s.2.1 s.2.2) :=
          filledCount_set_cell_ge q s.1 s.2.1 (hval s (List.mem_cons_self s rest))
      _ ≤ _ := ih (fun t ht => hval t (List.mem_cons_of_mem s ht)) _

/-- The heart of the termination argument: a committing pass strictly
increases the number of filled cells. -/
lemma filledCount_propagate_step {b : Board}
    (hne : Functional.find_singletons b (Functional.all_candidates b) ≠ []) :
    filledCount b <
      filledCount (Functional.apply_singles b
        (Functional.find_singletons b (Functional.all_candidates b))) := by
  set singles := Functional.find_singletons b (Functional.all_candidates b) with hdef
  obtain ⟨s, rest, hcons⟩ := List.exists_cons_of_ne_nil hne
  have hs : s ∈ singles := by rw [hcons]; exact List.mem_cons_self s rest
  have hprops := mem_find_singletons (hdef ▸ hs)
  rw [hcons]
  show filledCount b <
    filledCount (Functional.apply_singles (Functional.set_cell b s.1 s.2.1 s.2.2) rest)
  calc filledCount b
      < filledCount (Functional.set_cell b s.1 s.2.1 s.2.2) :=
        filledCount_set_cell_gt hprops.1 hprops.2.1 hprops.2.2.2.1 hprops.2.2.1
    _ ≤ _ := by
        apply filledCount_apply_singles_ge
        intro t ht
        have : t ∈ singles := by rw [hcons]; exact List.mem_cons_of_mem s ht
        exact (mem_find_singletons (hdef ▸ this)).2.2.2.1

/-- Fuel 82 always suffices for the propagation loop. -/
lemma propagate_loop_isSome_F :
    ∀ (n : Nat) (b : Board), 81 < filledCount b + n →
      (Functional.propagate_loop n b).isSome = true := by
  intro n
  induction n with
  | zero =>
    intro b hb
    have := filledCount_le b
    omega
  | succ n ih =>
    intro b hb
    unfold Functional.propagate_loop
    by_cases hnc : Functional.cell_has_no_candidates (Functional.all_candidates b)
    · rw [if_pos hnc]
      rfl
    · rw [if_neg hnc]
      by_cases hsing :
          (Functional.find_singletons b (Functional.all_candidates b)).isEmpty
      · rw [if_pos hsing]
        rfl
      · rw [if_neg hsing]
        apply ih
        have hne : Functional.find_singletons b (Functional.all_candidates b) ≠ [] := by
          intro h
          rw [h] at hsing
          exact hsing rfl
        have := filledCount_propagate_step hne
        omega

/-- Everything the search needs to know about a successful propagation:
the result is a fixed point (no zero-candidate cell, no singleton left),
it preserves the filled cells of the input, and it is 9×9 when the
input is. -/
lemma propagate_loop_spec :
    ∀ (n : Nat) (b q : Board), Functional.propagate_loop n b = some (some q) →
      Functional.cell_has_no_candidates (Functional.all_candidates q) = false ∧
      Functional.find_singletons q (Functional.all_candidates q) = [] ∧
      cellsPreserved b q ∧ (wellFormed b → wellFormed q) := by
  intro n
  induction n with
  | zero => intro b q h; exact absurd h (by simp [Functional.propagate_loop])
  | succ n ih =>
    intro b q h
    unfold Functional.propagate_loop at h
    by_cases hnc : Functional.cell_has_no_candidates (Functional.all_candidates b)
    · rw [if_pos hnc] at h
      exact absurd (Option.some.inj h) (by simp)
    · rw [if_neg hnc] at h
      by_cases hsing :
          (Functional.find_singletons b (Functional.all_candidates b)).isEmpty
      · rw [if_pos hsing] at h
        have hq : b = q := Option.some.inj (Option.some.inj h)
        subst hq
        refine ⟨by simpa using hnc, ?_, cellsPreserved_refl b, fun h => h⟩
        exact List.isEmpty_iff.mp hsing
      · rw [if_neg hsing] at h
        obtain ⟨hfix1, hfix2, hpres, hwf⟩ := ih _ _ h
        refine ⟨hfix1, hfix2, ?_, ?_⟩
        · apply cellsPreserved_trans _ hpres
          apply cell_apply_singles_preserved _ b (cellsPreserved_refl b)
          intro s hsmem
          have := mem_find_singletons hsmem
          exact ⟨this.1, this.2.1, this.2.2.1⟩
        · intro hb
          exact hwf (wellFormed_apply_singles hb _)

/-- On 9×9 boards the two propagation loops coincide step for step. -/
lemma propagate_loop_I_eq_F :
    ∀ (n : Nat) (b : Board), wellFormed b →
      Imperative.propagate_loop n b = Functional.propagate_loop n b := by
  intro n
  induction n with
  | zero => intro b _; rfl
  | succ n ih =>
    intro b hb
    unfold Imperative.propagate_loop Functional.propagate_loop
    rw [all_candidates_eq, cell_has_no_candidates_eq]
    by_cases hnc : Functional.cell_has_no_candidates (Functional.all_candidates b)
    · rw [if_pos hnc, if_pos hnc]
    · rw [if_neg hnc, if_neg hnc, find_singles_eq]
      by_cases hsing :
          (Functional.find_singletons b (Functional.all_candidates b)).isEmpty
      · rw [if_pos hsing, if_pos hsing]
      · rw [if_neg hsing, if_neg hsing]
        have hfold : ∀ (singles : List (Nat × Nat × Nat)) (q : Board), wellFormed q →
            (∀ s ∈ singles, s.1 < 9 ∧ s.2.1 < 9) →
            (singles.foldl (fun acc rcv => Imperative.set_cell acc rcv.1 rcv.2.1 rcv.2.2) q
              = Functional.apply_singles q singles ∧
              wellFormed (Functional.apply_singles q singles)) := by
          intro singles
          induction singles with
          | nil => intro q hq _; exact ⟨rfl, hq⟩
          | cons s rest ih2 =>
            intro q hq hrange
            have hs := hrange s (List.mem_cons_self s rest)
            have hset : Imperative.set_cell q s.1 s.2.1 s.2.2 =
                Functional.set_cell q s.1 s.2.1 s.2.2 :=
              set_cell_I_eq_F hq _ hs.1 hs.2
            have hq2 : wellFormed (Functional.set_cell q s.1 s.2.1 s.2.2) :=
              wellFormed_set_cell_F hq _ _ _
            have := ih2 (Functional.set_cell q s.1 s.2.1 s.2.2) hq2
              (fun t ht => hrange t (List.mem_cons_of_mem s ht))
            refine ⟨?_, this.2⟩
            show (rest.foldl _ (Imperative.set_cell q s.1 s.2.1 s.2.2)) = _
            rw [hset]
            exact this.1
        have hrange : ∀ s ∈ Functional.find_singletons b (Functional.all_candidates b),
            s.1 < 9 ∧ s.2.1 < 9 := by
          intro s hsmem
          have := mem_find_singletons hsmem
          exact ⟨this.1, this.2.1⟩
        obtain ⟨heq, hwf2⟩ := hfold _ b hb hrange
        rw [heq]
        exact ih _ hwf2

lemma propagate_I_eq_F {b : Board} (hb : wellFormed b) :
    Imperative.propagate b = Functional.propagate b := by
  unfold Imperative.propagate Functional.propagate
  rw [propagate_loop_I_eq_F 82 b hb]

/-!
## The MRV selector: fold characterization
-/

lemma choose_F_eq_fold (b : Board) :
    Functional.choose_mrv_cell b =
      ((allCells.filter (fun rc => cell b rc.1 rc.2 == 0)).map
        (fun rc => (rc.1, rc.2, candsAt (Functional.all_candidates b) rc.1 rc.2))).foldl
        Functional.min_candidates none := by
  unfold Functional.choose_mrv_cell
  by_cases hemp : ((allCells.filter (fun rc => cell b rc.1 rc.2 == 0)).map
      (fun rc => (rc.1, rc.2, candsAt (Functional.all_candidates b) rc.1 rc.2))).isEmpty
  · rw [if_pos hemp, List.isEmpty_iff.mp hemp]
    rfl
  · rw [if_neg hemp]

lemma min_candidates_some {best t : Nat × Nat × List Nat} (ht : t.2.2.length ≠ 0) :
    Functional.min_candidates (some best) t =
      if t.2.2.length < best.2.2.length then some t else some best := by
  unfold Functional.min_candidates
  rw [if_neg (by simpa using ht)]

lemma min_candidates_none {t : Nat × Nat × List Nat} (ht : t.2.2.length ≠ 0) :
    Functional.min_candidates none t = some t := by
  unfold Functional.min_candidates
  rw [if_neg (by simpa using ht)]

/-- A singleton accumulator survives the rest of the fold (nothing can
be strictly smaller when zero lengths are excluded). -/
lemma fold_min_stab (l : List (Nat × Nat × List Nat))
    (hl : ∀ t ∈ l, t.2.2.length ≠ 0) (best : Nat × Nat × List Nat)
    (hb : best.2.2.length = 1) :
    l.foldl Functional.min_candidates (some best) = some best := by
  induction l with
  | nil => rfl
  | cons t rest ih =>
    have ht := hl t (List.mem_cons_self t rest)
    show List.foldl _ (Functional.min_candidates (some best) t) rest = _
    rw [min_candidates_some ht, if_neg (by omega)]
    exact ih (fun u hu => hl u (List.mem_cons_of_mem t hu))

/-- The fold keeps the first strict minimum: full characterization with
a nonempty accumulator. -/
lemma fold_min_first (l : List (Nat × Nat × List Nat)) :
    ∀ best : Nat × Nat × List Nat, (∀ t ∈ l, 1 ≤ t.2.2.length) →
      ∃ t, l.foldl Functional.min_candidates (some best) = some t ∧
        (∀ u ∈ best :: l, t.2.2.length ≤ u.2.2.length) ∧
        ∃ l1 l2, best :: l = l1 ++ t :: l2 ∧ ∀ u ∈ l1, t.2.2.length < u.2.2.length := by
  induction l with
  | nil =>
    intro best _
    refine ⟨best, rfl, ?_, [], [], rfl, by simp⟩
    intro u hu
    rw [List.mem_singleton.mp hu]
  | cons u rest ih =>
    intro best hlen
    have hu1 : 1 ≤ u.2.2.length := hlen u (List.mem_cons_self u rest)
    have hrest : ∀ t ∈ rest, 1 ≤ t.2.2.length :=
      fun t ht => hlen t (List.mem_cons_of_mem u ht)
    show ∃ t, List.foldl _ (Functional.min_candidates (some best) u) rest = some t ∧ _
    rw [min_candidates_some (by omega)]
    by_cases hlt : u.2.2.length < best.2.2.length
    · rw [if_pos hlt]
      obtain ⟨t, hfold, hmin, l1, l2, hsplit, hpref⟩ := ih u hrest
      refine ⟨t, hfold, ?_, best :: l1, l2, ?_, ?_⟩
      · intro w hw
        rcases List.mem_cons.mp hw with rfl | hw2
        · have := hmin u (List.mem_cons_self u rest)
          omega
        · exact hmin w hw2
      · rw [List.cons_append, ← hsplit]
      · intro w hw
        rcases List.mem_cons.mp hw with rfl | hw2
        · have := hmin u (List.mem_cons_self u rest)
          omega
        · exact hpref w hw2
    · rw [if_neg hlt]
      obtain ⟨t, hfold, hmin, l1, l2, hsplit, hpref⟩ := ih best hrest
      refine ⟨t, hfold, ?_, ?_⟩
      · intro w hw
        rcases List.mem_cons.mp hw with rfl | hw2
        · exact hmin w (List.mem_cons_self _ _)
        · rcases List.mem_cons.mp hw2 with rfl | hw3
          · have := hmin best (List.mem_cons_self _ _)
            omega
          · exact hmin w (List.mem_cons_of_mem _ hw3)
      · match l1, hsplit with
        | [], hsplit =>
          have hbt : best = t := by
            have := congrArg (fun l => List.head? l) hsplit
            simpa using this
          refine ⟨[], u :: rest, ?_, by simp⟩
          rw [← hbt]
          rfl
        | b1 :: l1, hsplit =>
          have hb1 : b1 = best := by
            have := congrArg (fun l => List.head? l) hsplit
            simpa using this.symm
          have hrest2 : rest = l1 ++ t :: l2 := by
            have := congrArg (fun l => List.tail l) hsplit
            simpa using this
          refine ⟨best :: u :: l1, l2, ?_, ?_⟩
          · rw [hrest2]
            rfl
          · intro w hw
            rcases List.mem_cons.mp hw with rfl | hw2
            · have := hpref b1 (List.mem_cons_self _ _)
              rw [hb1] at this
              exact this
            · rcases List.mem_cons.mp hw2 with rfl | hw3
              · have hbest := hpref b1 (List.mem_cons_self _ _)
                rw [hb1] at hbest
                omega
              · exact hpref w (List.mem_cons_of_mem _ hw3)

/-- The fold from an empty accumulator returns the first cell of
minimal candidate count. -/
lemma fold_min_none (l : List (Nat × Nat × List Nat)) (hne : l ≠ [])
    (hlen : ∀ t ∈ l, 1 ≤ t.2.2.length) :
    ∃ t, l.foldl Functional.min_candidates none = some t ∧
      (∀ u ∈ l, t.2.2.length ≤ u.2.2.length) ∧
      ∃ l1 l2, l = l1 ++ t :: l2 ∧ ∀ u ∈ l1, t.2.2.length < u.2.2.length := by
  obtain ⟨t0, rest, rfl⟩ := List.exists_cons_of_ne_nil hne
  have ht0 : 1 ≤ t0.2.2.length := hlen t0 (List.mem_cons_self t0 rest)
  show ∃ t, List.foldl _ (Functional.min_candidates none t0) rest = some t ∧ _
  rw [min_candidates_none (by omega)]
  exact fold_min_first rest t0 (fun t ht => hlen t (List.mem_cons_of_mem t0 ht))

/-- Membership of the fold result (used to read off the chosen cell's
properties). -/
lemma fold_min_mem (l : List (Nat × Nat × List Nat)) :
    ∀ acc t, l.foldl Functional.min_candidates acc = some t →
      (t ∈ l ∨ acc = some t) := by
  induction l with
  | nil => intro acc t h; exact Or.inr h
  | cons u rest ih =>
    intro acc t h
    rcases ih _ _ h with hmem | hacc
    · exact Or.inl (List.mem_cons_of_mem u hmem)
    · by_cases h0 : u.2.2.length = 0
      · have hnone : Functional.min_candidates acc u = none := by
          unfold Functional.min_candidates
          rw [if_pos (by simpa using h0)]
        rw [hnone] at hacc
        exact absurd hacc (by simp)
      · cases acc with
        | none =>
          rw [min_candidates_none h0] at hacc
          exact Or.inl (List.mem_cons.mpr (Or.inl (Option.some.inj hacc).symm))
        | some best =>
          rw [min_candidates_some h0] at hacc
          by_cases hlt : u.2.2.length < best.2.2.length
          · rw [if_pos hlt] at hacc
            exact Or.inl (List.mem_cons.mpr (Or.inl (Option.some.inj hacc).symm))
          · rw [if_neg hlt] at hacc
            exact Or.inr hacc

/-- As long as no zero-candidate empty cell is scanned, the imperative
selection loop (with its two early returns) computes the same result as
the functional fold, provided the accumulator never holds a singleton
(which the loop guarantees). -/
lemma choose_go_eq_fold (b : Board) (cb : List (List (List Nat))) :
    ∀ (pairs : List (Nat × Nat)) (acc : Option (Nat × Nat × List Nat)),
      (∀ rc ∈ pairs, cell b rc.1 rc.2 = 0 → (candsAt cb rc.1 rc.2).length ≠ 0) →
      (acc = none ∨ ∃ best, acc = some best ∧ 2 ≤ best.2.2.length) →
      Imperative.choose_go b cb pairs acc =
        ((pairs.filter (fun rc => cell b rc.1 rc.2 == 0)).map
          (fun rc => (rc.1, rc.2, candsAt cb rc.1 rc.2))).foldl
          Functional.min_candidates acc := by
  intro pairs
  induction pairs with
  | nil => intro acc _ _; rfl
  | cons rc rest ih =>
    intro acc hno hacc
    have hnorest : ∀ u ∈ rest, cell b u.1 u.2 = 0 → (candsAt cb u.1 u.2).length ≠ 0 :=
      fun u hu => hno u (List.mem_cons_of_mem rc hu)
    unfold Imperative.choose_go
    rw [List.filter_cons]
    by_cases hempty : cell b rc.1 rc.2 = 0
    · have hbeq : (cell b rc.1 rc.2 == 0) = true := by simpa using hempty
      rw [if_pos (by simpa using hempty), if_pos hbeq]
      have hlen0 : (candsAt cb rc.1 rc.2).length ≠ 0 :=
        hno rc (List.mem_cons_self rc rest) hempty
      rw [if_neg (by simpa using hlen0)]
      by_cases hlen1 : (candsAt cb rc.1 rc.2).length = 1
      · rw [if_pos (by simpa using hlen1)]
        rw [List.map_cons, List.foldl_cons]
        have hstep : Functional.min_candidates acc (rc.1, rc.2, candsAt cb rc.1 rc.2) =
            some (rc.1, rc.2, candsAt cb rc.1 rc.2) := by
          rcases hacc with rfl | ⟨best, rfl, hbest⟩
          · exact min_candidates_none hlen0
          · rw [min_candidates_some hlen0, if_pos (by simpa using by omega)]
        rw [hstep]
        rw [fold_min_stab]
        · intro t ht
          simp only [List.mem_map, List.mem_filter] at ht
          obtain ⟨u, ⟨humem, hueq⟩, rfl⟩ := ht
          exact hnorest u humem (by simpa using hueq)
        · simpa using hlen1
      · rw [if_neg (by simpa using hlen1)]
        rw [List.map_cons, List.foldl_cons]
        have h2 : 2 ≤ (candsAt cb rc.1 rc.2).length := by omega
        rcases hacc with rfl | ⟨best, rfl, hbest⟩
        · rw [min_candidates_none hlen0]
          exact ih _ hnorest (Or.inr ⟨_, rfl, h2⟩)
        · rw [min_candidates_some hlen0]
          dsimp only
          by_cases hlt : (candsAt cb rc.1 rc.2).length < best.2.2.length
          · rw [if_pos hlt, if_pos hlt]
            exact ih _ hnorest (Or.inr ⟨_, rfl, h2⟩)
          · rw [if_neg hlt, if_neg hlt]
            exact ih _ hnorest (Or.inr ⟨best, rfl, hbest⟩)
    · rw [if_neg (by simpa using hempty), if_neg (by simpa using hempty)]
      exact ih _ hnorest hacc

/-- When every empty cell keeps at least one candidate, the two MRV
selectors agree. -/
lemma choose_I_eq_F {b : Board}
    (hno : ∀ rc ∈ allCells, cell b rc.1 rc.2 = 0 →
      (Functional.candidates_for b rc.1 rc.2).length ≠ 0) :
    Imperative.choose_mrv_cell b = Functional.choose_mrv_cell b := by
  unfold Imperative.choose_mrv_cell
  rw [all_candidates_eq, choose_F_eq_fold]
  apply choose_go_eq_fold
  · intro rc hmem hcell
    obtain ⟨hr9, hc9⟩ := mem_allCells.mp hmem
    rw [candsAt_all_candidates b hr9 hc9]
    exact hno rc hmem hcell
  · exact Or.inl rfl

/-!
## Search equivalence and preservation
-/

lemma copy_board_eq (b : Board) : Imperative.copy_board b = b := by
  simp [Imperative.copy_board]

lemma to_immutable_eq (b : Board) : Functional.to_immutable b = b := by
  simp [Functional.to_immutable]

lemma from_immutable_eq (b : Board) : Functional.from_immutable b = b := by
  simp [Functional.from_immutable]

lemma propagate_some_F {b p : Board} (h : Functional.propagate b = some p) :
    Functional.propagate_loop 82 b = some (some p) := by
  unfold Functional.propagate at h
  cases hl : Functional.propagate_loop 82 b with
  | none => rw [hl] at h; exact absurd h (by simp)
  | some o => rw [hl] at h; rw [Option.getD_some] at h; rw [h]

/-- No zero-candidate cell means every cell (in particular every empty
one) keeps a non-empty candidate list. -/
lemma no_cand_false {b : Board}
    (h : Functional.cell_has_no_candidates (Functional.all_candidates b) = false) :
    ∀ rc ∈ allCells, (Functional.candidates_for b rc.1 rc.2).length ≠ 0 := by
  intro rc hmem
  obtain ⟨hr9, hc9⟩ := mem_allCells.mp hmem
  unfold Functional.cell_has_no_candidates at h
  simp only [List.any_eq_false, List.mem_range, Bool.not_eq_true] at h
  have h2 := h rc.1 hr9 rc.2 hc9
  rw [candsAt_all_candidates b hr9 hc9] at h2
  intro hlen
  rw [List.length_eq_zero.mp hlen] at h2
  simp at h2

/-- An empty singleton list means: after the fixed point, no empty cell
has exactly one candidate. -/
lemma no_singles {b : Board}
    (h : Functional.find_singletons b (Functional.all_candidates b) = []) :
    ∀ rc ∈ allCells, cell b rc.1 rc.2 = 0 →
      (Functional.candidates_for b rc.1 rc.2).length ≠ 1 := by
  intro rc hmem hcell hlen
  obtain ⟨hr9, hc9⟩ := mem_allCells.mp hmem
  unfold Functional.find_singletons at h
  rw [List.map_eq_nil_iff, List.filter_eq_nil_iff] at h
  apply h rc hmem
  rw [candsAt_all_candidates b hr9 hc9]
  simp [hcell, hlen]

lemma choose_F_mem {b : Board} {rcc : Nat × Nat × List Nat}
    (h : Functional.choose_mrv_cell b = some rcc) :
    rcc.1 < 9 ∧ rcc.2.1 < 9 ∧ cell b rcc.1 rcc.2.1 = 0 ∧
      rcc.2.2 = Functional.candidates_for b rcc.1 rcc.2.1 := by
  rw [choose_F_eq_fold] at h
  rcases fold_min_mem _ _ _ h with hmem | habs
  · simp only [List.mem_map, List.mem_filter] at hmem
    obtain ⟨rc, ⟨hrc, hcond⟩, heq⟩ := hmem
    obtain ⟨hr9, hc9⟩ := mem_allCells.mp hrc
    subst heq
    refine ⟨hr9, hc9, by simpa using hcond, ?_⟩
    simpa using candsAt_all_candidates b hr9 hc9
  · exact absurd habs (by simp)

lemma try_each_some {f : Nat → Option Board} :
    ∀ {l : List Nat} {s : Board}, Functional.try_each f l = some s →
      ∃ v ∈ l, f v = some s := by
  intro l
  induction l with
  | nil => intro s h; exact absurd h (by simp [Functional.try_each])
  | cons v vs ih =>
    intro s h
    unfold Functional.try_each at h
    cases hv : f v with
    | some res =>
      simp only [hv] at h
      exact ⟨v, List.mem_cons_self v vs, by rw [hv, h]⟩
    | none =>
      simp only [hv] at h
      obtain ⟨w, hw, hfw⟩ := ih h
      exact ⟨w, List.mem_cons_of_mem v hw, hfw⟩

lemma cellsPreserved_set_empty {p : Board} {r c : Nat} (hemp : cell p r c = 0)
    (v : Nat) : cellsPreserved p (Functional.set_cell p r c v) := by
  intro r1 c1 hr1 hc1 hne
  rw [cell_set_cell_F p r c v r1 c1 hr1 hc1, if_neg]
  rintro ⟨rfl, rfl⟩
  exact hne hemp

lemma search_loop_preserve :
    ∀ (n : Nat) (b s : Board), wellFormed b → Functional.search_loop n b = some s →
      cellsPreserved b s ∧ wellFormed s := by
  intro n
  induction n with
  | zero => intro b s _ h; exact absurd h (by simp [Functional.search_loop])
  | succ n ih =>
    intro b s hb h
    unfold Functional.search_loop at h
    cases hp : Functional.propagate b with
    | none =>
      simp only [hp] at h
      exact absurd h (by simp)
    | some p =>
      simp only [hp] at h
      obtain ⟨hfix1, hfix2, hpres, hwfp⟩ := propagate_loop_spec 82 b p (propagate_some_F hp)
      have hwfp2 : wellFormed p := hwfp hb
      by_cases hsolved : Functional.is_solved p
      · rw [if_pos hsolved] at h
        have : p = s := Option.some.inj h
        subst this
        exact ⟨hpres, hwfp2⟩
      · rw [if_neg hsolved] at h
        cases hch : Functional.choose_mrv_cell p with
        | none =>
          simp only [hch] at h
          exact absurd h (by simp)
        | some rcc =>
          simp only [hch] at h
          obtain ⟨hr9, hc9, hempc, _⟩ := choose_F_mem hch
          obtain ⟨v, _, hfv⟩ := try_each_some h
          obtain ⟨hpres2, hwfs⟩ := ih _ s (wellFormed_set_cell_F hwfp2 _ _ _) hfv
          refine ⟨?_, hwfs⟩
          exact cellsPreserved_trans hpres
            (cellsPreserved_trans (cellsPreserved_set_empty hempc v) hpres2)

lemma try_vals_eq_try_each (f : Nat → Option Board) :
    ∀ l : List Nat, Imperative.try_vals f l = Functional.try_each f l := by
  intro l
  induction l with
  | nil => rfl
  | cons v vs ih =>
    unfold Imperative.try_vals Functional.try_each
    cases hv : f v with
    | some res => simp only [hv]
    | none =>
      simp only [hv]
      exact ih

lemma search_loop_I_eq_F :
    ∀ (n : Nat) (b : Board), wellFormed b →
      Imperative.search_loop n b = Functional.search_loop n b := by
  intro n
  induction n with
  | zero => intro b _; rfl
  | succ n ih =>
    intro b hb
    unfold Imperative.search_loop Functional.search_loop
    rw [copy_board_eq, propagate_I_eq_F hb]
    cases hp : Functional.propagate b with
    | none => rfl
    | some p =>
      dsimp only
      rw [is_solved_eq]
      obtain ⟨hfix1, hfix2, _, hwfp⟩ := propagate_loop_spec 82 b p (propagate_some_F hp)
      have hwfp2 : wellFormed p := hwfp hb
      by_cases hsolved : Functional.is_solved p
      · rw [if_pos hsolved, if_pos hsolved]
      · rw [if_neg hsolved, if_neg hsolved]
        rw [choose_I_eq_F (fun rc hm _ => no_cand_false hfix1 rc hm)]
        cases hch : Functional.choose_mrv_cell p with
        | none => rfl
        | some rcc =>
          dsimp only
          obtain ⟨hr9, hc9, hempc, _⟩ := choose_F_mem hch
          rw [try_vals_eq_try_each]
          congr 1
          funext v
          rw [copy_board_eq, set_cell_I_eq_F hwfp2 v hr9 hc9]
          exact ih _ (wellFormed_set_cell_F hwfp2 _ _ _)

lemma solve_I_eq_F {b : Board} (hb : wellFormed b) :
    Imperative.solve b = Functional.solve b := by
  unfold Imperative.solve Functional.solve
  dsimp only
  rw [copy_board_eq, to_immutable_eq, has_conflict_eq]
  by_cases hc : Functional.has_conflict b
  · rw [if_pos hc, if_pos hc]
  · rw [if_neg hc, if_neg hc]
    unfold Imperative.search Functional.search
    rw [search_loop_I_eq_F 82 b hb]
    cases hs : Functional.search_loop 82 b with
    | none => rfl
    | some res =>
      dsimp only
      rw [from_immutable_eq]

lemma solve_F_preserve {b s : Board} (hb : wellFormed b)
    (h : Functional.solve b = some s) : cellsPreserved b s := by
  unfold Functional.solve at h
  dsimp only at h
  rw [to_immutable_eq] at h
  by_cases hc : Functional.has_conflict b
  · rw [if_pos hc] at h
    exact absurd h (by simp)
  · rw [if_neg hc] at h
    cases hs : Functional.search b with
    | none =>
      simp only [hs] at h
      exact absurd h (by simp)
    | some res =>
      simp only [hs] at h
      rw [from_immutable_eq] at h
      have : res = s := Option.some.inj h
      subst this
      exact (search_loop_preserve 82 b res hb hs).1

/-!
## Frame lemmas for the store-passing model

Every write of the imperative pipeline targets either a freshly
allocated object (`copy_board`) or the private propagation copy; no
object that existed before a call is ever written.
-/

lemma readRef_writeRef_ne {s : Heap.Store} {i j : Nat} (b : Board) (hne : j ≠ i) :
    Heap.readRef (Heap.writeRef s i b) j = Heap.readRef s j := by
  unfold Heap.readRef Heap.writeRef
  rw [getD_set]
  rw [if_neg (by tauto)]

lemma readRef_append_lt {s : Heap.Store} {j : Nat} (b : Board) (hj : j < s.length) :
    Heap.readRef (s ++ [b]) j = Heap.readRef s j := by
  unfold Heap.readRef
  rw [List.getD_eq_getElem?_getD, List.getD_eq_getElem?_getD, List.getElem?_append,
    if_pos hj]

lemma set_cellH_frame {s : Heap.Store} {ref j : Nat} (r c v : Nat) (hne : j ≠ ref) :
    Heap.readRef (Heap.set_cellH s ref r c v) j = Heap.readRef s j :=
  readRef_writeRef_ne _ hne

lemma length_set_cellH (s : Heap.Store) (ref r c v : Nat) :
    (Heap.set_cellH s ref r c v).length = s.length := List.length_set s ref _

lemma singles_foldl_frame (ref : Nat) (singles : List (Nat × Nat × Nat)) :
    ∀ (s : Heap.Store),
      ((singles.foldl (fun st rcv => Heap.set_cellH st ref rcv.1 rcv.2.1 rcv.2.2) s).length
        = s.length) ∧
      (∀ j, j ≠ ref →
        Heap.readRef (singles.foldl
          (fun st rcv => Heap.set_cellH st ref rcv.1 rcv.2.1 rcv.2.2) s) j =
        Heap.readRef s j) := by
  induction singles with
  | nil => intro s; exact ⟨rfl, fun j _ => rfl⟩
  | cons rcv rest ih =>
    intro s
    simp only [List.foldl_cons]
    obtain ⟨hlen, hread⟩ := ih (Heap.set_cellH s ref rcv.1 rcv.2.1 rcv.2.2)
    refine ⟨?_, ?_⟩
    · rw [hlen, length_set_cellH]
    · intro j hj
      rw [hread j hj, set_cellH_frame _ _ _ hj]

lemma propagate_loopH_frame :
    ∀ (n : Nat) (s : Heap.Store) (ref : Nat),
      ((Heap.propagate_loopH n s ref).2.length = s.length) ∧
      (∀ j, j ≠ ref → Heap.readRef (Heap.propagate_loopH n s ref).2 j =
        Heap.readRef s j) := by
  intro n
  induction n with
  | zero => intro s ref; exact ⟨rfl, fun j _ => rfl⟩
  | succ n ih =>
    intro s ref
    unfold Heap.propagate_loopH
    by_cases hnc : Imperative.cell_has_no_candidates
        (Imperative.all_candidates (Heap.readRef s ref))
    · rw [if_pos hnc]
      exact ⟨rfl, fun j _ => rfl⟩
    · rw [if_neg hnc]
      by_cases hsing : (Imperative.find_singles (Heap.readRef s ref)
          (Imperative.all_candidates (Heap.readRef s ref))).isEmpty
      · rw [if_pos hsing]
        exact ⟨rfl, fun j _ => rfl⟩
      · rw [if_neg hsing]
        obtain ⟨hflen, hfread⟩ := singles_foldl_frame ref _ s
        obtain ⟨hlen2, hread2⟩ := ih _ ref
        refine ⟨by rw [hlen2, hflen], ?_⟩
        intro j hj
        rw [hread2 j hj, hfread j hj]

lemma try_valsH_frame (f : Nat → Heap.Store → Option Nat × Heap.Store)
    (hf : ∀ v s, s.length ≤ (f v s).2.length ∧
      ∀ j < s.length, Heap.readRef (f v s).2 j = Heap.readRef s j) :
    ∀ (l : List Nat) (s : Heap.Store),
      s.length ≤ (Heap.try_valsH f l s).2.length ∧
      ∀ j < s.length, Heap.readRef (Heap.try_valsH f l s).2 j = Heap.readRef s j := by
  intro l
  induction l with
  | nil => intro s; exact ⟨Nat.le_refl _, fun j _ => rfl⟩
  | cons v vs ih =>
    intro s
    unfold Heap.try_valsH
    obtain ⟨hlen1, hread1⟩ := hf v s
    cases hres : f v s with
    | mk o s2 =>
      cases o with
      | some res =>
        refine ⟨?_, ?_⟩
        · have := hlen1
          rw [hres] at this
          exact this
        · intro j hj
          have := hread1 j hj
          rw [hres] at this
          exact this
      | none =>
        obtain ⟨hlen2, hread2⟩ := ih s2
        have hl1 : s.length ≤ s2.length := by
          have := hlen1
          rw [hres] at this
          exact this
        refine ⟨Nat.le_trans hl1 hlen2, ?_⟩
        intro j hj
        rw [hread2 j (by omega)]
        have := hread1 j hj
        rw [hres] at this
        exact this

lemma search_loopH_frame :
    ∀ (n : Nat) (s : Heap.Store) (ref : Nat),
      s.length ≤ (Heap.search_loopH n s ref).2.length ∧
      ∀ j < s.length, Heap.readRef (Heap.search_loopH n s ref).2 j =
        Heap.readRef s j := by
  intro n
  induction n with
  | zero => intro s ref; exact ⟨Nat.le_refl _, fun j _ => rfl⟩
  | succ n ih =>
    intro s ref
    have hunf : Heap.search_loopH (n + 1) s ref =
        match Heap.propagate_loopH 82
          (Heap.allocBoard s (Imperative.copy_board (Heap.readRef s ref))) s.length with
        | (none, s2) => (none, s2)
        | (some p, s2) =>
          if Imperative.is_solved (Heap.readRef s2 p) then (some p, s2)
          else
            match Imperative.choose_mrv_cell (Heap.readRef s2 p) with
            | none => (none, s2)
            | some rcc =>
              Heap.try_valsH (fun v st =>
                Heap.search_loopH n
                  (Heap.set_cellH (Heap.allocBoard st
                    (Imperative.copy_board (Heap.readRef st p)))
                    st.length rcc.1 rcc.2.1 v) st.length) rcc.2.2 s2 := rfl
    rw [hunf]
    obtain ⟨hplen, hpread⟩ := propagate_loopH_frame 82
      (Heap.allocBoard s (Imperative.copy_board (Heap.readRef s ref))) s.length
    generalize hp : Heap.propagate_loopH 82
      (Heap.allocBoard s (Imperative.copy_board (Heap.readRef s ref))) s.length = pr
    rw [hp] at hplen hpread
    obtain ⟨o, s2⟩ := pr
    have halen : (Heap.allocBoard s (Imperative.copy_board (Heap.readRef s ref))).length
        = s.length + 1 := by simp [Heap.allocBoard]
    have hplen2 : s2.length = s.length + 1 := by
      rw [hplen, halen]
    have hpread2 : ∀ j < s.length, Heap.readRef s2 j = Heap.readRef s j := by
      intro j hj
      rw [hpread j (by omega)]
      exact readRef_append_lt _ hj
    cases o with
    | none =>
      dsimp only
      exact ⟨by omega, hpread2⟩
    | some p =>
      dsimp only
      by_cases hsolved : Imperative.is_solved (Heap.readRef s2 p)
      · rw [if_pos hsolved]
        exact ⟨by omega, hpread2⟩
      · rw [if_neg hsolved]
        cases hch : Imperative.choose_mrv_cell (Heap.readRef s2 p) with
        | none =>
          dsimp only
          exact ⟨by omega, hpread2⟩
        | some rcc =>
          dsimp only
          have hbranch : ∀ v st, st.length ≤
              ((fun v st => Heap.search_loopH n
                (Heap.set_cellH (Heap.allocBoard st
                  (Imperative.copy_board (Heap.readRef st p)))
                  st.length rcc.1 rcc.2.1 v) st.length) v st).2.length ∧
              ∀ j < st.length, Heap.readRef (((fun v st => Heap.search_loopH n
                (Heap.set_cellH (Heap.allocBoard st
                  (Imperative.copy_board (Heap.readRef st p)))
                  st.length rcc.1 rcc.2.1 v) st.length) v st)).2 j =
                Heap.readRef st j := by
            intro v st
            dsimp only
            obtain ⟨hslen, hsread⟩ := ih (Heap.set_cellH
              (Heap.allocBoard st (Imperative.copy_board (Heap.readRef st p)))
              st.length rcc.1 rcc.2.1 v) st.length
            have hslen0 : (Heap.set_cellH
                (Heap.allocBoard st (Imperative.copy_board (Heap.readRef st p)))
                st.length rcc.1 rcc.2.1 v).length = st.length + 1 := by
              rw [length_set_cellH]
              simp [Heap.allocBoard]
            refine ⟨by omega, ?_⟩
            intro j hj
            rw [hsread j (by omega)]
            rw [set_cellH_frame _ _ _ (by omega)]
            exact readRef_append_lt _ hj
          obtain ⟨htlen, htread⟩ := try_valsH_frame _ hbranch rcc.2.2 s2
          refine ⟨by omega, ?_⟩
          intro j hj
          rw [htread j (by omega)]
          exact hpread2 j hj

lemma solveH_frame (s : Heap.Store) (input : Nat) :
    ∀ j < s.length, Heap.readRef (Heap.solveH s input).2 j = Heap.readRef s j := by
  intro j hj
  unfold Heap.solveH
  by_cases hc : Imperative.has_conflict (Imperative.copy_board (Heap.readRef s input))
  · rw [if_pos hc]
    exact readRef_append_lt _ hj
  · rw [if_neg hc]
    obtain ⟨_, hread⟩ := search_loopH_frame 82
      (Heap.allocBoard s (Imperative.copy_board (Heap.readRef s input))) s.length
    rw [hread j (by simp [Heap.allocBoard]; omega)]
    exact readRef_append_lt _ hj

/-!
## Full specification of the MRV selector
-/

lemma candidates_for_sorted (b : Board) (r c : Nat) :
    List.Pairwise (· < ·) (Functional.candidates_for b r c) := by
  unfold Functional.candidates_for
  by_cases hf : cell b r c != 0
  · rw [if_pos hf]
    exact List.pairwise_singleton _ _
  · rw [if_neg hf]
    exact List.Pairwise.sublist (List.filter_sublist _) (by decide)

lemma allCells_pairwise_idx :
    allCells.Pairwise (fun x y : Nat × Nat => 9 * x.1 + x.2 < 9 * y.1 + y.2) := by
  decide

/-- Complete behaviour of both MRV selectors on a board with an empty
cell where no empty cell has an empty candidate set: they agree and
return the first empty cell of minimal candidate count in row-major
order, with its own (ascending) candidate list. -/
lemma choose_spec {b : Board}
    (hne : ∃ rc ∈ allCells, cell b rc.1 rc.2 = 0)
    (hcand : ∀ rc ∈ allCells, cell b rc.1 rc.2 = 0 →
      Functional.candidates_for b rc.1 rc.2 ≠ []) :
    ∃ r c cs, Functional.choose_mrv_cell b = some (r, c, cs) ∧
      Imperative.choose_mrv_cell b = some (r, c, cs) ∧
      r < 9 ∧ c < 9 ∧ cell b r c = 0 ∧
      cs = Functional.candidates_for b r c ∧
      (∀ rc ∈ allCells, cell b rc.1 rc.2 = 0 →
        cs.length ≤ (Functional.candidates_for b rc.1 rc.2).length) ∧
      (∀ rc ∈ allCells, cell b rc.1 rc.2 = 0 →
        (Functional.candidates_for b rc.1 rc.2).length = cs.length →
        9 * r + c ≤ 9 * rc.1 + rc.2) := by
  set l := (allCells.filter (fun rc => cell b rc.1 rc.2 == 0)).map
    (fun rc => (rc.1, rc.2, candsAt (Functional.all_candidates b) rc.1 rc.2)) with hl
  have hmemlist : ∀ rc ∈ allCells, cell b rc.1 rc.2 = 0 →
      (rc.1, rc.2, Functional.candidates_for b rc.1 rc.2) ∈ l := by
    intro rc hm he
    rw [hl]
    apply List.mem_map.mpr
    refine ⟨rc, List.mem_filter.mpr ⟨hm, by simpa using he⟩, ?_⟩
    obtain ⟨h1, h2⟩ := mem_allCells.mp hm
    rw [candsAt_all_candidates b h1 h2]
  have hlprops : ∀ t ∈ l, ∃ rc ∈ allCells, cell b rc.1 rc.2 = 0 ∧
      t = (rc.1, rc.2, Functional.candidates_for b rc.1 rc.2) := by
    intro t ht
    rw [hl] at ht
    obtain ⟨rc, hmf, heq⟩ := List.mem_map.mp ht
    obtain ⟨hm, hcond⟩ := List.mem_filter.mp hmf
    obtain ⟨h1, h2⟩ := mem_allCells.mp hm
    refine ⟨rc, hm, by simpa using hcond, ?_⟩
    rw [← heq, candsAt_all_candidates b h1 h2]
  have hlen : ∀ t ∈ l, 1 ≤ t.2.2.length := by
    intro t ht
    obtain ⟨rc, hm, he, rfl⟩ := hlprops t ht
    have := hcand rc hm he
    have : 0 < (Functional.candidates_for b rc.1 rc.2).length := List.length_pos.mpr this
    simpa using this
  have hlne : l ≠ [] := by
    obtain ⟨rc, hm, he⟩ := hne
    exact List.ne_nil_of_mem (hmemlist rc hm he)
  obtain ⟨t, hfold, hmin, l1, l2, hsplit, hpref⟩ := fold_min_none l hlne hlen
  have hchooseF : Functional.choose_mrv_cell b = some t := by
    rw [choose_F_eq_fold, ← hl, hfold]
  have hchooseI : Imperative.choose_mrv_cell b = some t := by
    rw [choose_I_eq_F, hchooseF]
    intro rc hm he
    have := hcand rc hm he
    intro hlen0
    exact this (List.length_eq_zero.mp hlen0)
  have htmem : t ∈ l := by
    rw [hsplit]
    exact List.mem_append_right _ (List.mem_cons_self _ _)
  obtain ⟨rc0, hm0, he0, hteq⟩ := hlprops t htmem
  obtain ⟨hr0, hc0⟩ := mem_allCells.mp hm0
  have hpw : l.Pairwise (fun x y : Nat × Nat × List Nat =>
      9 * x.1 + x.2.1 < 9 * y.1 + y.2.1) := by
    rw [hl]
    rw [List.pairwise_map]
    exact List.Pairwise.sublist (List.filter_sublist _) allCells_pairwise_idx
  refine ⟨rc0.1, rc0.2, Functional.candidates_for b rc0.1 rc0.2,
    by rw [hchooseF, hteq], by rw [hchooseI, hteq], hr0, hc0, he0, rfl, ?_, ?_⟩
  · intro rc hm he
    have hmem2 := hmemlist rc hm he
    have := hmin _ hmem2
    rw [hteq] at this
    simpa using this
  · intro rc hm he hleneq
    have hmem2 := hmemlist rc hm he
    rw [hsplit] at hmem2
    rcases List.mem_append.mp hmem2 with hin1 | hin2
    · exfalso
      have := hpref _ hin1
      rw [hteq] at this
      simp only at this
      omega
    · rcases List.mem_cons.mp hin2 with heq2 | hin3
      · rw [hteq] at heq2
        have h1 : rc.1 = rc0.1 := by
          have := congrArg (fun x : Nat × Nat × List Nat => x.1) heq2
          simpa using this
        have h2 : rc.2 = rc0.2 := by
          have := congrArg (fun x : Nat × Nat × List Nat => x.2.1) heq2
          simpa using this
        omega
      · rw [hsplit] at hpw
        obtain ⟨_, hpw2, _⟩ := List.pairwise_append.mp hpw
        have hR := (List.pairwise_cons.mp hpw2).1 _ hin3
        rw [hteq] at hR
        simp only at hR
        omega

/-!
## The claims
-/

/-- C1: the spec claims that every non-none result of `solve` is fully
filled and conflict-free.  The code violates the conflict-free half:
`propagate` commits all singletons of a pass against candidates
computed once, so two empty cells of one unit with the same sole
candidate are both committed.  On the conflict-free, in-range 9×9 input
`cexValidityIn` (three such pairs), both implementations of `solve`
return the fully-filled board `cexValidityOut`, whose row 0 holds `5`
twice: `has_conflict` on the result is true. -/
theorem claim_C1_eval :
    wellFormed cexValidityIn ∧ cellsInRange cexValidityIn ∧
    Functional.has_conflict cexValidityIn = false ∧
    Functional.solve cexValidityIn = some cexValidityOut ∧
    Imperative.solve cexValidityIn = some cexValidityOut ∧
    Functional.is_solved cexValidityOut = true ∧
    Functional.has_conflict cexValidityOut = true := by
  refine ⟨by decide, by decide, by decide, by decide, by decide, by decide, by decide⟩

/-- C2: on every 9×9 input the functional implementation of `solve`
(immutable boards, copy-on-write) and the imperative implementation
(mutable boards with copying) return identical results — the
propagation loops, the MRV selectors after propagation, and the
backtracking searches coincide step for step. -/
theorem claim_C2 (b : Board) (hb : wellFormed b) :
    Functional.solve b = Imperative.solve b :=
  (solve_I_eq_F hb).symm

theorem claim_C2_witness :
    wellFormed conflictedBoard ∧
      Functional.solve conflictedBoard = Imperative.solve conflictedBoard :=
  ⟨by decide, claim_C2 conflictedBoard (by decide)⟩

/-- C3: solving never overwrites a cell that was already filled in the
input: if either implementation of `solve` returns a board, every
non-zero input cell keeps its value in the result (`propagate` only
commits cells that are empty, and the search only branches on an empty
cell). -/
theorem claim_C3 (b s : Board) (r c : Nat) (hb : wellFormed b) (hr : r < 9)
    (hc : c < 9) (hnz : cell b r c ≠ 0)
    (hsol : Functional.solve b = some s ∨ Imperative.solve b = some s) :
    cell s r c = cell b r c := by
  have hF : Functional.solve b = some s := by
    rcases hsol with h | h
    · exact h
    · rw [solve_I_eq_F hb] at h
      exact h
  exact solve_F_preserve hb hF r c hr hc hnz

theorem claim_C3_witness :
    wellFormed cexValidityIn ∧ cell cexValidityIn 0 0 ≠ 0 ∧
      cell cexValidityOut 0 0 = cell cexValidityIn 0 0 :=
  ⟨by decide, by decide,
    claim_C3 cexValidityIn cexValidityOut 0 0 (by decide) (by decide) (by decide)
      (by decide) (Or.inl (by decide))⟩

/-- C4: if `has_conflict` is true of the input, both implementations of
`solve` return `none`; by definition of `solve` the conflict check
short-circuits before `search` is ever invoked, so no branching search
is performed. -/
theorem claim_C4 (b : Board) (hb : wellFormed b)
    (hc : Functional.has_conflict b = true) :
    Functional.solve b = none ∧ Imperative.solve b = none := by
  have hF : Functional.solve b = none := by
    unfold Functional.solve
    dsimp only
    rw [to_immutable_eq, if_pos hc]
  exact ⟨hF, by rw [solve_I_eq_F hb]; exact hF⟩

theorem claim_C4_witness :
    Functional.has_conflict conflictedBoard = true ∧
      Functional.solve conflictedBoard = none ∧
      Imperative.solve conflictedBoard = none := by
  refine ⟨by decide, ?_⟩
  exact claim_C4 conflictedBoard (by decide) (by decide)

/-- C5 counterexample: the spec claims out-of-range cell values are
surfaced as validation failures and never treated as search outcomes.
The code has no validation at all: `rangeViolationIn` is a 9×9 board
containing the out-of-range value `10`, yet both implementations of
`solve` treat it as an ordinary search instance and return a board that
still contains the `10`. -/
theorem claim_C5_counterexample :
    wellFormed rangeViolationIn ∧ cell rangeViolationIn 0 0 = 10 ∧
    Functional.solve rangeViolationIn = some rangeViolationOut ∧
    Imperative.solve rangeViolationIn = some rangeViolationOut ∧
    cell rangeViolationOut 0 0 = 10 := by
  refine ⟨by decide, by decide, by decide, by decide, by decide⟩

/-- C5 (amended): `solve` performs no input validation: a cell value
above 9 is neither rejected nor coerced — it passes the conflict check
like any digit, flows through the search, and appears unchanged in any
returned board. -/
theorem claim_C5_amended (b s : Board) (r c : Nat) (hb : wellFormed b) (hr : r < 9)
    (hc : c < 9) (hout : 9 < cell b r c)
    (hsol : Functional.solve b = some s ∨ Imperative.solve b = some s) :
    cell s r c = cell b r c := by
  have hF : Functional.solve b = some s := by
    rcases hsol with h | h
    · exact h
    · rw [solve_I_eq_F hb] at h
      exact h
  exact solve_F_preserve hb hF r c hr hc (by omega)

theorem claim_C5_amended_witness :
    9 < cell rangeViolationIn 0 0 ∧
      cell rangeViolationOut 0 0 = cell rangeViolationIn 0 0 :=
  ⟨by decide,
    claim_C5_amended rangeViolationIn rangeViolationOut 0 0 (by decide) (by decide)
      (by decide) (by decide) (Or.inl (by decide))⟩

/-- C6: the spec requires the Cell Selector to signal Contradiction
(`none`) whenever some empty cell has an empty candidate set.  The
imperative `choose_mrv_cell` does; the functional one is defeated by
its own fold: a zero-candidate cell resets the accumulator to `none`,
which the next empty cell overwrites.  On `zeroCandBoard` the empty
cell `(0,0)` has no candidates, yet the functional selector returns a
cell while the imperative one returns `none`. -/
theorem claim_C6_eval :
    cell zeroCandBoard 0 0 = 0 ∧
    Functional.candidates_for zeroCandBoard 0 0 = [] ∧
    (Functional.choose_mrv_cell zeroCandBoard).isSome = true ∧
    Imperative.choose_mrv_cell zeroCandBoard = none := by
  refine ⟨by decide, by decide, by decide, by decide⟩

/-- C7: on every 9×9 board with at least one empty cell in which every
empty cell has at least one candidate, both MRV selectors return the
same `(r, c, candidates)`: an empty cell whose candidate count is
minimal among all empty cells, the first such cell in row-major scan
order (smallest `9*r + c`), carrying its own candidate list in strictly
ascending numeric order. -/
theorem claim_C7 (b : Board) (hb : wellFormed b)
    (hne : ∃ rc ∈ allCells, cell b rc.1 rc.2 = 0)
    (hcand : ∀ rc ∈ allCells, cell b rc.1 rc.2 = 0 →
      Functional.candidates_for b rc.1 rc.2 ≠ []) :
    ∃ r c cs, Functional.choose_mrv_cell b = some (r, c, cs) ∧
      Imperative.choose_mrv_cell b = some (r, c, cs) ∧
      r < 9 ∧ c < 9 ∧ cell b r c = 0 ∧
      cs = Functional.candidates_for b r c ∧
      List.Pairwise (· < ·) cs ∧
      (∀ rc ∈ allCells, cell b rc.1 rc.2 = 0 →
        cs.length ≤ (Functional.candidates_for b rc.1 rc.2).length) ∧
      (∀ rc ∈ allCells, cell b rc.1 rc.2 = 0 →
        (Functional.candidates_for b rc.1 rc.2).length = cs.length →
        9 * r + c ≤ 9 * rc.1 + rc.2) := by
  obtain ⟨r, c, cs, h1, h2, h3, h4, h5, h6, h7, h8⟩ := choose_spec hne hcand
  refine ⟨r, c, cs, h1, h2, h3, h4, h5, h6, ?_, h7, h8⟩
  rw [h6]
  exact candidates_for_sorted b r c

theorem claim_C7_witness :
    (∃ rc ∈ allCells, cell cexValidityIn rc.1 rc.2 = 0) ∧
      ∃ r c cs, Functional.choose_mrv_cell cexValidityIn = some (r, c, cs) ∧
        Imperative.choose_mrv_cell cexValidityIn = some (r, c, cs) := by
  have h := claim_C7 cexValidityIn (by decide) (by decide) (by decide)
  obtain ⟨r, c, cs, h1, h2, _⟩ := h
  exact ⟨by decide, r, c, cs, h1, h2⟩

/-- C8: propagation terminates — whenever a pass commits (the singleton
list is non-empty) the filled-cell count strictly increases, and
because that count is bounded by 81, any fuel exceeding
`81 - filledCount b` suffices for both propagation loops (in
particular 82 always does, so the loop runs at most 81 committing
iterations before returning a board or signalling contradiction). -/
theorem claim_C8 (b : Board) (hb : wellFormed b) :
    (Functional.find_singletons b (Functional.all_candidates b) ≠ [] →
      filledCount b < filledCount (Functional.apply_singles b
        (Functional.find_singletons b (Functional.all_candidates b)))) ∧
    (∀ n : Nat, 81 < filledCount b + n →
      (Functional.propagate_loop n b).isSome = true ∧
      (Imperative.propagate_loop n b).isSome = true) := by
  refine ⟨filledCount_propagate_step, ?_⟩
  intro n hn
  have hF := propagate_loop_isSome_F n b hn
  exact ⟨hF, by rw [propagate_loop_I_eq_F n b hb]; exact hF⟩

theorem claim_C8_witness :
    wellFormed cexValidityIn ∧ 81 < filledCount cexValidityIn + 82 ∧
      (Functional.propagate_loop 82 cexValidityIn).isSome = true ∧
      (Imperative.propagate_loop 82 cexValidityIn).isSome = true := by
  refine ⟨by decide, by decide, ?_, ?_⟩
  · exact ((claim_C8 cexValidityIn (by decide)).2 82 (by decide)).1
  · exact ((claim_C8 cexValidityIn (by decide)).2 82 (by decide)).2

/-- C9: the spec claims `solve (solve b) = solve b` for non-none
results.  This fails on the code for the same reason as the validity
claim: on `cexValidityIn`, `solve` returns the conflicted full board
`cexValidityOut`, and feeding that back in hits the fail-fast conflict
check, which returns `none` instead of the board itself. -/
theorem claim_C9_eval :
    Functional.solve cexValidityIn = some cexValidityOut ∧
    Functional.solve cexValidityOut = none ∧
    Imperative.solve cexValidityOut = none := by
  refine ⟨by decide, by decide, by decide⟩

/-- C10: `solve` never modifies its input object.  In the store-passing
model of the imperative implementation — where `copy_board` allocates a
fresh object and `set_cell` writes through a reference — every write of
`solveH` targets a freshly allocated copy, so the input object holds
exactly the same board after the call.  (The functional implementation
is pure by construction: its `to_immutable`/`from_immutable` and
`set_cell` build new structures.) -/
theorem claim_C10 (s : Heap.Store) (input : Nat) (hin : input < s.length) :
    Heap.readRef (Heap.solveH s input).2 input = Heap.readRef s input :=
  solveH_frame s input input hin

theorem claim_C10_witness :
    0 < ([conflictedBoard] : Heap.Store).length ∧
      Heap.readRef (Heap.solveH [conflictedBoard] 0).2 0 =
        Heap.readRef [conflictedBoard] 0 :=
  ⟨by decide, claim_C10 [conflictedBoard] 0 (by decide)⟩

end Sudoku
